import Mathlib

/-!
Shallow embedding of the sleep-quality prediction core of `src/app.py`:
the preprocessing function `preprocess_input` (lines 393-435), the risk-band
thresholds of `main` (lines 666-695), the class-index selection for the
probability and the SHAP values (lines 665 and 737-743), and the
waterfall-segment construction of `generate_shap_plot` (lines 479-538).

Numeric values are modelled as rationals.  A single-row pandas frame is
modelled as an association list from column name to value.  The fitted
transformers (ordinal encoder, standard scaler) are modelled as optional
column-wise functions, which is how the fitted scikit-learn transformers act
on a frame whose columns are passed in their fitted order.  Fallible steps
return `Except String`.  The Streamlit rendering, file loading and the
matplotlib figure itself are outside the embedding.
-/

namespace SleepApp

open List

/-- Column lookup in a single-row frame (first matching column). -/
def alistLookup {β : Type} : List (String × β) → String → Option β
  | [], _ => none
  | kv :: rest, k => if kv.1 = k then some kv.2 else alistLookup rest k

/-- `missing_features = [f for f in selected_features if f not in data]`
(app.py line 400). -/
def missing_features (data : List (String × ℚ)) (selected : List String) : List String :=
  selected.filter fun f => (alistLookup data f).isNone

/-- `important_data = {k: v for k, v in data.items() if k in selected_features}`
(app.py line 404). -/
def projectImportant (data : List (String × ℚ)) (selected : List String) : List (String × ℚ) :=
  data.filter fun kv => selected.contains kv.1

/-- Pandas column selection `df[cols]` on a single-row frame: picks the named
columns in the order of `cols`, raising a KeyError when a column is absent. -/
def selectColumns (df : List (String × ℚ)) : List String → Except String (List (String × ℚ))
  | [] => .ok []
  | c :: rest =>
    match alistLookup df c with
    | none => .error ("KeyError: " ++ c)
    | some v =>
      match selectColumns df rest with
      | .ok out => .ok ((c, v) :: out)
      | .error e => .error e

/-- The categorical-encoding and the continuous-scaling steps of
`preprocess_input` (app.py lines 408-423; the two branches are structurally
identical): when the column list is nonempty and a fitted transformer is
configured, select exactly those columns of the frame and apply the
transformer column-wise, keeping the column names; otherwise the resulting
sub-frame is empty. -/
def applyTransform (df : List (String × ℚ)) (cols : List String)
    (t : Option (String → ℚ → ℚ)) : Except String (List (String × ℚ)) :=
  if cols.isEmpty then .ok []
  else
    match t with
    | some f =>
      match selectColumns df cols with
      | .ok picked => .ok (picked.map fun kv => (kv.1, f kv.1 kv.2))
      | .error e => .error e
    | none => .ok []

/-- The merge step of `preprocess_input` (app.py lines 426-431). -/
def mergeFrames (cat_encoded cont_scaled : List (String × ℚ)) : List (String × ℚ) :=
  if ¬cat_encoded.isEmpty ∧ ¬cont_scaled.isEmpty then cat_encoded ++ cont_scaled
  else if ¬cat_encoded.isEmpty then cat_encoded
  else cont_scaled

/-- The feature lists loaded by `load_models` (app.py lines 351-355). -/
structure FeaturesInfo where
  selected_features : List String
  selected_categorical : List String
  selected_continuous : List String

/-- `preprocess_input` (app.py lines 393-435): missing-feature validation,
projection to the needed keys, categorical encoding, continuous scaling,
merge, and the final reindex `X_processed[selected_features]`. -/
def preprocess_input (data : List (String × ℚ)) (fi : FeaturesInfo)
    (ordinal_encoder scaler_cont : Option (String → ℚ → ℚ)) :
    Except String (List (String × ℚ)) :=
  if (missing_features data fi.selected_features).isEmpty then
    match applyTransform (projectImportant data fi.selected_features)
            fi.selected_categorical ordinal_encoder,
          applyTransform (projectImportant data fi.selected_features)
            fi.selected_continuous scaler_cont with
    | .ok cat_encoded, .ok cont_scaled =>
      selectColumns (mergeFrames cat_encoded cont_scaled) fi.selected_features
    | .error e, _ => .error e
    | .ok _, .error e => .error e
  else
    .error ("Missing required features: " ++
      String.intercalate ", " (missing_features data fi.selected_features))

/-- The three risk bands of `main` (app.py lines 669-695). -/
inductive RiskBand where
  | Low
  | Medium
  | High
  deriving DecidableEq

/-- Risk classification of `main` (app.py lines 666-695):
`risk_score = probability * 100`, strict thresholds at 25 and 35. -/
def classify (probability : ℚ) : RiskBand :=
  let risk_score := probability * 100
  if risk_score < 25 then RiskBand.Low
  else if risk_score < 35 then RiskBand.Medium
  else RiskBand.High

/-- Two-digit decimal fraction part. -/
def pad2 (n : Nat) : String :=
  if n < 10 then "0" ++ toString n else toString n

/-- Helper for `formatFixed2` on nonnegative rationals. -/
def formatFixed2Nonneg (q : ℚ) : String :=
  let n : Nat := (⌊q * 100 + 1 / 2⌋).toNat
  toString (n / 100) ++ "." ++ pad2 (n % 100)

/-- Python fixed-point formatting `f"{v:.2f}"` modelled on rationals
(rounding half away from zero; the binary-float tie behaviour of CPython is
not modelled, and no claim depends on a rounding tie). -/
def formatFixed2 (q : ℚ) : String :=
  if q < 0 then "-" ++ formatFixed2Nonneg (-q) else formatFixed2Nonneg q

/-- `feature_name_map` of `generate_shap_plot` (app.py lines 496-503). -/
def feature_name_map : List (String × String) :=
  [("gender", "Gender"), ("age", "Age"), ("education", "Education"),
   ("cog", "Cognitive Function"), ("cesd", "Depression Score"), ("lonely", "Loneliness"),
   ("selfhealth", "Self-rated Health"), ("depre", "Depression Level"),
   ("lifesat", "Life Satisfaction"), ("chronum", "Chronic Conditions"),
   ("smoke", "Smoking"), ("digeste", "Digestive Disease"), ("lunge", "Lung Disease"),
   ("arthre", "Arthritis"), ("hchild", "Number of Children"),
   ("iadl", "IADL Score"), ("adl", "ADL Score")]

/-- Segment label construction (app.py lines 510-512): display name looked up
in `feature_name_map` with fallback to the raw feature id, then the feature
value formatted to two decimal places. -/
def segmentLabel (feature_names : List String) (feature_values : List ℚ) (idx : Nat) : String :=
  let fid := feature_names.getD idx ""
  let feat_name := (alistLookup feature_name_map fid).getD fid
  feat_name ++ " = " ++ formatFixed2 (feature_values.getD idx 0)

/-- Stable ascending insertion by key (an element is placed after every
already-present element whose key is not greater). -/
def insertAsc (key : Nat → ℚ) (i : Nat) : List Nat → List Nat
  | [] => [i]
  | j :: rest => if key i < key j then i :: j :: rest else j :: insertAsc key i rest

/-- Stable ascending argsort of the indices `0, ..., n-1` by key; models
`np.argsort`, whose sort is the stable insertion sort for arrays of the size
used here (at most the number of selected features). -/
def argsortAsc (key : Nat → ℚ) (n : Nat) : List Nat :=
  (List.range n).foldl (fun acc i => insertAsc key i acc) []

/-- `sorted_idx = np.argsort(np.abs(shap_values))[::-1]` (app.py line 488). -/
def sorted_idx (shap_values : List ℚ) : List Nat :=
  (argsortAsc (fun i => |shap_values.getD i 0|) shap_values.length).reverse

/-- One bar of the waterfall plot: its left edge (`positions`), its signed
length (`values`), its color and its label (app.py lines 505-514). -/
structure Segment where
  position : ℚ
  value : ℚ
  color : String
  label : String
  deriving DecidableEq, Inhabited

/-- The per-feature loop of `generate_shap_plot` (app.py lines 505-514):
walk the sorted indices keeping the running cumulative offset `cumsum`, which
starts at `base_value` and advances by each emitted contribution. -/
def waterfallWalk (shap_values feature_values : List ℚ) (feature_names : List String) :
    List Nat → ℚ → List Segment
  | [], _ => []
  | idx :: rest, cumsum =>
    { position := cumsum
      value := shap_values.getD idx 0
      color := if 0 < shap_values.getD idx 0 then "#FF6B6B" else "#4ECDC4"
      label := segmentLabel feature_names feature_values idx } ::
      waterfallWalk shap_values feature_values feature_names rest
        (cumsum + shap_values.getD idx 0)

/-- The waterfall segments drawn by `generate_shap_plot` (app.py lines
479-538); `feature_names` is `features_info['selected_features']` and the
figure rendering itself is not modelled. -/
def generate_shap_plot (shap_values feature_values : List ℚ) (base_value : ℚ)
    (feature_names : List String) : List Segment :=
  waterfallWalk shap_values feature_values feature_names (sorted_idx shap_values) base_value

/-- The value returned by `explainer.shap_values(X)` for the single input
row: either one row per output class, or a single row (app.py line 737). -/
inductive ShapOutput where
  | perClass (classes : List (List ℚ))
  | single (row : List ℚ)

/-- The value of `explainer.expected_value`: either an array or a scalar
(app.py line 741). -/
inductive BaseValue where
  | arr (vals : List ℚ)
  | scalar (v : ℚ)

/-- `if isinstance(shap_values, list): shap_values = shap_values[1]`
(app.py lines 738-739); indexing a too-short list raises an IndexError,
modelled as `none`. -/
def selectShap : ShapOutput → Option (List ℚ)
  | .perClass classes => classes[1]?
  | .single row => some row

/-- `base_value = base_value[1] if len(base_value) > 1 else base_value[0]`
(app.py lines 742-743). -/
def selectBase : BaseValue → Option ℚ
  | .arr vals => if 1 < vals.length then vals[1]? else vals[0]?
  | .scalar v => some v

/-- `probability = model.predict_proba(X)[0, 1]` (app.py line 665). -/
def predictProbability (probs : List (List ℚ)) : Option ℚ :=
  (probs[0]?).bind fun row => row[1]?

/-- The outcome of one submitted prediction as far as the claims are
concerned: probability, risk band, optional waterfall decomposition and
optional degraded-mode warning. -/
structure PredictionView where
  probability : ℚ
  risk_class : RiskBand
  decomposition : Option (List Segment)
  warning : Option String
  deriving DecidableEq

/-- The post-submit handler of `main` (app.py lines 658-764): preprocess,
predict, classify, then attempt the SHAP decomposition inside its own
try/except (lines 736-752) so that an attribution failure only degrades the
response with a warning.  The handler is abstracted over the fitted model
(`predict_proba`) and the explainer (`shap_values_of`); the Streamlit
rendering is not modelled. -/
def handlePrediction (input_data : List (String × ℚ)) (fi : FeaturesInfo)
    (ordinal_encoder scaler_cont : Option (String → ℚ → ℚ))
    (predict_proba : List (String × ℚ) → List (List ℚ))
    (shap_values_of : List (String × ℚ) → Except String (ShapOutput × BaseValue)) :
    Except String PredictionView :=
  match preprocess_input input_data fi ordinal_encoder scaler_cont with
  | .error e => .error e
  | .ok X =>
    match predictProbability (predict_proba X) with
    | none => .error "IndexError"
    | some probability =>
      match shap_values_of X with
      | .error e =>
        .ok { probability := probability, risk_class := classify probability,
              decomposition := none,
              warning := some ("Feature impact analysis generation failed: " ++ e) }
      | .ok (sv, bv) =>
        match selectShap sv, selectBase bv with
        | some shap_row, some base_value =>
          .ok { probability := probability, risk_class := classify probability,
                decomposition := some (generate_shap_plot shap_row (X.map Prod.snd)
                  base_value fi.selected_features),
                warning := none }
        | _, _ =>
          .ok { probability := probability, risk_class := classify probability,
                decomposition := none,
                warning := some "Feature impact analysis generation failed: IndexError" }

/-! ### Association-list lemmas -/

theorem alistLookup_isSome_iff {β : Type} (l : List (String × β)) (k : String) :
    (alistLookup l k).isSome ↔ k ∈ l.map Prod.fst := by
  induction l with
  | nil => simp [alistLookup]
  | cons kv rest ih =>
    by_cases h : kv.1 = k
    · simp [alistLookup, h]
    · simp only [alistLookup, if_neg h, List.map_cons, List.mem_cons, ih]
      constructor
      · exact Or.inr
      · rintro (rfl | hk)
        · exact absurd rfl h
        · exact hk

theorem alistLookup_append {β : Type} (l₁ l₂ : List (String × β)) (k : String) :
    alistLookup (l₁ ++ l₂) k = ((alistLookup l₁ k).or (alistLookup l₂ k)) := by
  induction l₁ with
  | nil => simp [alistLookup]
  | cons kv rest ih =>
    by_cases h : kv.1 = k <;> simp [alistLookup, h, ih]

theorem alistLookup_filter {β : Type} (l : List (String × β)) (q : String → Bool) (k : String)
    (hk : q k = true) :
    alistLookup (l.filter fun kv => q kv.1) k = alistLookup l k := by
  induction l with
  | nil => rfl
  | cons kv rest ih =>
    by_cases h : q kv.1
    · by_cases hk1 : kv.1 = k <;> simp [List.filter_cons, h, alistLookup, hk1, hk, ih]
    · have hne : kv.1 ≠ k := fun he => h (by rw [he]; exact hk)
      simp [List.filter_cons, h, alistLookup, hne, ih]

/-! ### selectColumns lemmas -/

theorem selectColumns_eq_ok (df : List (String × ℚ)) (cols : List String)
    (h : ∀ c ∈ cols, (alistLookup df c).isSome) :
    selectColumns df cols = .ok (cols.map fun c => (c, (alistLookup df c).getD 0)) := by
  induction cols with
  | nil => rfl
  | cons c rest ih =>
    obtain ⟨v, hv⟩ := Option.isSome_iff_exists.mp (h c (List.mem_cons_self c rest))
    rw [selectColumns, hv, ih fun d hd => h d (List.mem_cons_of_mem c hd)]
    simp [hv]

theorem selectColumns_error (df : List (String × ℚ)) (cols : List String) (c : String)
    (hc : c ∈ cols) (h : alistLookup df c = none) :
    ∃ e, selectColumns df cols = .error e := by
  induction cols with
  | nil => cases hc
  | cons d rest ih =>
    rw [selectColumns]
    cases hd : alistLookup df d with
    | none => exact ⟨_, rfl⟩
    | some v =>
      rcases List.mem_cons.mp hc with rfl | hmem
      · rw [h] at hd; cases hd
      · obtain ⟨e, he⟩ := ih hmem
        rw [he]
        exact ⟨e, rfl⟩

theorem selectColumns_ok_keys (df : List (String × ℚ)) (cols : List String)
    (out : List (String × ℚ)) (h : selectColumns df cols = .ok out) :
    out.map Prod.fst = cols := by
  induction cols generalizing out with
  | nil =>
    rw [selectColumns] at h
    cases h
    rfl
  | cons c rest ih =>
    rw [selectColumns] at h
    cases hl : alistLookup df c with
    | none => rw [hl] at h; cases h
    | some v =>
      rw [hl] at h
      cases hr : selectColumns df rest with
      | error e => rw [hr] at h; cases h
      | ok out2 =>
        rw [hr] at h
        cases h
        simp [ih out2 hr]

/-! ### applyTransform lemmas -/

theorem applyTransform_none (df : List (String × ℚ)) (cols : List String) :
    applyTransform df cols none = .ok [] := by
  unfold applyTransform
  split <;> rfl

theorem applyTransform_ok_of (df : List (String × ℚ)) (cols : List String)
    (t : Option (String → ℚ → ℚ))
    (h : ∀ c ∈ cols, (alistLookup df c).isSome) (ht : cols ≠ [] → t.isSome) :
    ∃ out, applyTransform df cols t = .ok out ∧ out.map Prod.fst = cols := by
  cases cols with
  | nil => exact ⟨[], by unfold applyTransform; rfl, rfl⟩
  | cons c rest =>
    obtain ⟨f, rfl⟩ := Option.isSome_iff_exists.mp (ht (by simp))
    refine ⟨(c :: rest).map fun d => (d, f d ((alistLookup df d).getD 0)), ?_, ?_⟩
    · unfold applyTransform
      rw [if_neg (by simp), selectColumns_eq_ok df _ h]
      show Except.ok (((c :: rest).map fun d => (d, (alistLookup df d).getD 0)).map
        fun kv => (kv.1, f kv.1 kv.2)) = _
      rw [List.map_map]
      rfl
    · rw [List.map_map]
      exact List.map_id _

theorem applyTransform_ok_keys (df : List (String × ℚ)) (cols : List String)
    (t : Option (String → ℚ → ℚ)) (out : List (String × ℚ))
    (h : applyTransform df cols t = .ok out) : out.map Prod.fst ⊆ cols := by
  unfold applyTransform at h
  by_cases hc : cols.isEmpty
  · rw [if_pos hc] at h
    cases h
    simp
  · rw [if_neg hc] at h
    cases t with
    | none =>
      cases h
      simp
    | some f =>
      cases hs : selectColumns df cols with
      | error e => rw [hs] at h; cases h
      | ok picked =>
        rw [hs] at h
        cases h
        rw [List.map_map]
        have : (Prod.fst ∘ fun kv : String × ℚ => (kv.1, f kv.1 kv.2)) = Prod.fst := rfl
        rw [this, selectColumns_ok_keys df cols picked hs]
        exact List.Subset.refl cols

/-! ### mergeFrames -/

theorem mergeFrames_eq_append (ce cs : List (String × ℚ)) :
    mergeFrames ce cs = ce ++ cs := by
  unfold mergeFrames
  rcases ce with _ | ⟨kv, rest⟩
  · simp
  · rcases cs with _ | ⟨kv2, rest2⟩ <;> simp

/-- Claim C1: for every raw record containing every identifier in
`selected_features` (with the loaded feature set partitioned into its
categorical/continuous sub-lists and the corresponding fitted transformers
configured), `preprocess_input` succeeds and returns a vector whose column
order is exactly `selected_features` and whose length is
`selected_features.length`. -/
theorem preprocess_complete_ok (data : List (String × ℚ)) (fi : FeaturesInfo)
    (ordinal_encoder scaler_cont : Option (String → ℚ → ℚ))
    (hdata : ∀ f ∈ fi.selected_features, (alistLookup data f).isSome)
    (hcat : fi.selected_categorical ⊆ fi.selected_features)
    (hcont : fi.selected_continuous ⊆ fi.selected_features)
    (hcover : ∀ f ∈ fi.selected_features,
      f ∈ fi.selected_categorical ∨ f ∈ fi.selected_continuous)
    (henc : fi.selected_categorical ≠ [] → ordinal_encoder.isSome)
    (hsc : fi.selected_continuous ≠ [] → scaler_cont.isSome) :
    ∃ v, preprocess_input data fi ordinal_encoder scaler_cont = .ok v ∧
      v.map Prod.fst = fi.selected_features ∧
      v.length = fi.selected_features.length := by
  have hmiss : missing_features data fi.selected_features = [] := by
    refine List.filter_eq_nil_iff.mpr fun f hf => ?_
    obtain ⟨v, hv⟩ := Option.isSome_iff_exists.mp (hdata f hf)
    simp [hv]
  have hproj : ∀ f ∈ fi.selected_features,
      alistLookup (projectImportant data fi.selected_features) f = alistLookup data f := by
    intro f hf
    exact alistLookup_filter data _ f (by simpa using hf)
  obtain ⟨ce, hce, hcek⟩ := applyTransform_ok_of (projectImportant data fi.selected_features)
    fi.selected_categorical ordinal_encoder
    (fun c hc => by rw [hproj c (hcat hc)]; exact hdata c (hcat hc)) henc
  obtain ⟨cs, hcs, hcsk⟩ := applyTransform_ok_of (projectImportant data fi.selected_features)
    fi.selected_continuous scaler_cont
    (fun c hc => by rw [hproj c (hcont hc)]; exact hdata c (hcont hc)) hsc
  have hmerge : ∀ f ∈ fi.selected_features,
      (alistLookup (mergeFrames ce cs) f).isSome := by
    intro f hf
    rw [mergeFrames_eq_append, alistLookup_append]
    rcases hcover f hf with hfc | hfc
    · obtain ⟨v, hv⟩ := Option.isSome_iff_exists.mp
        ((alistLookup_isSome_iff ce f).mpr (hcek ▸ hfc))
      simp [hv]
    · obtain ⟨v, hv⟩ := Option.isSome_iff_exists.mp
        ((alistLookup_isSome_iff cs f).mpr (hcsk ▸ hfc))
      cases alistLookup ce f <;> simp [hv]
  refine ⟨fi.selected_features.map fun c => (c, (alistLookup (mergeFrames ce cs) c).getD 0),
    ?_, by rw [List.map_map]; exact List.map_id _, by simp⟩
  rw [preprocess_input, hmiss]
  simp only [List.isEmpty_nil, if_true, hce, hcs]
  exact selectColumns_eq_ok _ _ hmerge

/-- Claim C1 witness. -/
theorem preprocess_complete_ok_witness :
    ∃ v, preprocess_input [("g", 1), ("age", 70)] ⟨["g", "age"], ["g"], ["age"]⟩
        (some fun _ x => x + 1) (some fun _ x => x * 2) = .ok v ∧
      v.map Prod.fst = ["g", "age"] ∧ v.length = (["g", "age"] : List String).length :=
  preprocess_complete_ok [("g", 1), ("age", 70)] ⟨["g", "age"], ["g"], ["age"]⟩
    (some fun _ x => x + 1) (some fun _ x => x * 2)
    (by decide) (by decide) (by decide) (by decide) (fun _ => rfl) (fun _ => rfl)

/-- Claim C2: for every raw record missing at least one identifier of
`selected_features`, `preprocess_input` fails — for every encoder and scaler
alike, so before any transformation is applied — with the validation error
built from the list of missing features, and that list contains every absent
identifier. -/
theorem preprocess_missing_error (data : List (String × ℚ)) (fi : FeaturesInfo)
    (h : ∃ f ∈ fi.selected_features, alistLookup data f = none) :
    ∀ ordinal_encoder scaler_cont,
      preprocess_input data fi ordinal_encoder scaler_cont =
        .error ("Missing required features: " ++
          String.intercalate ", " (missing_features data fi.selected_features)) ∧
      ∀ g ∈ fi.selected_features, alistLookup data g = none →
        g ∈ missing_features data fi.selected_features := by
  intro ordinal_encoder scaler_cont
  obtain ⟨f, hf, hnone⟩ := h
  have hmem : f ∈ missing_features data fi.selected_features :=
    List.mem_filter.mpr ⟨hf, by simp [hnone]⟩
  constructor
  · rw [preprocess_input]
    cases hm : missing_features data fi.selected_features with
    | nil => rw [hm] at hmem; cases hmem
    | cons x xs => simp
  · intro g hg hgnone
    exact List.mem_filter.mpr ⟨hg, by simp [hgnone]⟩

/-- Claim C2 witness. -/
theorem preprocess_missing_error_witness :
    preprocess_input [("a", 1)] ⟨["a", "cesd"], [], ["a", "cesd"]⟩ none none =
      .error ("Missing required features: " ++
        String.intercalate ", " (missing_features [("a", 1)] ["a", "cesd"])) ∧
    ∀ g ∈ (["a", "cesd"] : List String), alistLookup [("a", (1 : ℚ))] g = none →
      g ∈ missing_features [("a", 1)] ["a", "cesd"] :=
  preprocess_missing_error [("a", 1)] ⟨["a", "cesd"], [], ["a", "cesd"]⟩
    ⟨"cesd", by decide, by decide⟩ none none

/-- Claim C3: `classify` maps every probability to a risk band with
thresholds on `probability * 100`: strictly below 25 gives Low, at least 25
and below 35 gives Medium, at least 35 gives High; in particular a risk
score of exactly 25 gives Medium and exactly 35 gives High. -/
theorem classify_thresholds (p : ℚ) :
    (p * 100 < 25 → classify p = RiskBand.Low) ∧
    (25 ≤ p * 100 → p * 100 < 35 → classify p = RiskBand.Medium) ∧
    (35 ≤ p * 100 → classify p = RiskBand.High) ∧
    classify (25 / 100) = RiskBand.Medium ∧
    classify (35 / 100) = RiskBand.High := by
  refine ⟨fun h => ?_, fun h1 h2 => ?_, fun h => ?_, ?_, ?_⟩
  · simp [classify, if_pos h]
  · simp [classify, if_neg (not_lt.mpr h1), if_pos h2]
  · simp [classify, if_neg (not_lt.mpr (by linarith : (25 : ℚ) ≤ p * 100)),
      if_neg (not_lt.mpr h)]
  · have h : ((25 : ℚ) / 100) * 100 = 25 := by norm_num
    simp only [classify, h]
    rw [if_neg (lt_irrefl (25 : ℚ)), if_pos (by norm_num : (25 : ℚ) < 35)]
  · have h : ((35 : ℚ) / 100) * 100 = 35 := by norm_num
    simp only [classify, h]
    rw [if_neg (by norm_num : ¬(35 : ℚ) < 25), if_neg (lt_irrefl (35 : ℚ))]

/-- Claim C3 witness. -/
theorem classify_thresholds_witness :
    classify (1 / 10) = RiskBand.Low ∧ classify (3 / 10) = RiskBand.Medium ∧
      classify (1 / 2) = RiskBand.High :=
  ⟨(classify_thresholds (1 / 10)).1 (by norm_num),
   (classify_thresholds (3 / 10)).2.1 (by norm_num) (by norm_num),
   (classify_thresholds (1 / 2)).2.2.1 (by norm_num)⟩

/-- Claim C9: `preprocess_input` is a pure function of its arguments (the
embedding is stateless exactly as the source reads only its arguments), so
two runs on the same record, feature set, encoder and scaler give identical
results. -/
theorem preprocess_deterministic (data : List (String × ℚ)) (fi : FeaturesInfo)
    (ordinal_encoder scaler_cont : Option (String → ℚ → ℚ))
    (r₁ r₂ : Except String (List (String × ℚ)))
    (h₁ : r₁ = preprocess_input data fi ordinal_encoder scaler_cont)
    (h₂ : r₂ = preprocess_input data fi ordinal_encoder scaler_cont) :
    r₁ = r₂ :=
  h₁.trans h₂.symm

/-- Claim C9 witness. -/
theorem preprocess_deterministic_witness :
    preprocess_input [("a", 1)] ⟨["a"], [], ["a"]⟩ none (some fun _ x => x) =
      preprocess_input [("a", 1)] ⟨["a"], [], ["a"]⟩ none (some fun _ x => x) :=
  preprocess_deterministic [("a", 1)] ⟨["a"], [], ["a"]⟩ none (some fun _ x => x)
    _ _ rfl rfl

/-- Claim C10: with a well-formed feature set, if the categorical sub-list is
nonempty but no encoder is configured (or the continuous sub-list is nonempty
but no scaler is configured), `preprocess_input` fails with an error even on
a complete record — the final reindex to `selected_features` cannot find the
untransformed columns — rather than silently returning a shorter vector. -/
theorem preprocess_missing_transformer_fails (data : List (String × ℚ)) (fi : FeaturesInfo)
    (ordinal_encoder scaler_cont : Option (String → ℚ → ℚ))
    (hdata : ∀ f ∈ fi.selected_features, (alistLookup data f).isSome)
    (hcatsub : fi.selected_categorical ⊆ fi.selected_features)
    (hcontsub : fi.selected_continuous ⊆ fi.selected_features)
    (hdisj : ∀ f ∈ fi.selected_categorical, f ∉ fi.selected_continuous)
    (hcase : (fi.selected_categorical ≠ [] ∧ ordinal_encoder = none) ∨
      (fi.selected_continuous ≠ [] ∧ scaler_cont = none)) :
    ∃ e, preprocess_input data fi ordinal_encoder scaler_cont = .error e := by
  have hmiss : missing_features data fi.selected_features = [] := by
    refine List.filter_eq_nil_iff.mpr fun f hf => ?_
    obtain ⟨v, hv⟩ := Option.isSome_iff_exists.mp (hdata f hf)
    simp [hv]
  rw [preprocess_input, hmiss]
  simp only [List.isEmpty_nil, if_true]
  rcases hcase with ⟨hne, rfl⟩ | ⟨hne, rfl⟩
  · obtain ⟨c, hc⟩ := List.exists_mem_of_ne_nil _ hne
    rw [applyTransform_none]
    cases hcs : applyTransform (projectImportant data fi.selected_features)
        fi.selected_continuous scaler_cont with
    | error e => exact ⟨e, rfl⟩
    | ok cs =>
      have hkeys := applyTransform_ok_keys _ _ _ _ hcs
      have hnone : alistLookup (mergeFrames [] cs) c = none := by
        rw [mergeFrames_eq_append, List.nil_append]
        by_contra hx
        have : (alistLookup cs c).isSome := by
          cases h : alistLookup cs c
          · exact absurd h hx
          · simp
        exact hdisj c hc (hkeys ((alistLookup_isSome_iff cs c).mp this))
      exact selectColumns_error _ _ c (hcatsub hc) hnone
  · obtain ⟨c, hc⟩ := List.exists_mem_of_ne_nil _ hne
    rw [applyTransform_none]
    cases hce : applyTransform (projectImportant data fi.selected_features)
        fi.selected_categorical ordinal_encoder with
    | error e => exact ⟨e, rfl⟩
    | ok ce =>
      have hkeys := applyTransform_ok_keys _ _ _ _ hce
      have hnone : alistLookup (mergeFrames ce []) c = none := by
        rw [mergeFrames_eq_append, List.append_nil]
        by_contra hx
        have : (alistLookup ce c).isSome := by
          cases h : alistLookup ce c
          · exact absurd h hx
          · simp
        exact hdisj c (hkeys ((alistLookup_isSome_iff ce c).mp this)) hc
      exact selectColumns_error _ _ c (hcontsub hc) hnone

/-- Claim C10 witness. -/
theorem preprocess_missing_transformer_fails_witness :
    ∃ e, preprocess_input [("a", 1)] ⟨["a"], ["a"], []⟩ none none = .error e :=
  preprocess_missing_transformer_fails [("a", 1)] ⟨["a"], ["a"], []⟩ none none
    (by decide) (by decide) (by decide) (by decide) (Or.inl ⟨by decide, rfl⟩)

/-! ### Sorting lemmas for the waterfall order -/

theorem insertAsc_perm (key : Nat → ℚ) (i : Nat) (l : List Nat) :
    insertAsc key i l ~ i :: l := by
  induction l with
  | nil => exact List.Perm.refl _
  | cons j rest ih =>
    rw [insertAsc]
    by_cases h : key i < key j
    · rw [if_pos h]
    · rw [if_neg h]
      exact (ih.cons j).trans (List.Perm.swap i j rest)

theorem foldl_insertAsc_perm (key : Nat → ℚ) (l acc : List Nat) :
    l.foldl (fun a i => insertAsc key i a) acc ~ l ++ acc := by
  induction l generalizing acc with
  | nil => simp
  | cons i rest ih =>
    calc rest.foldl (fun a i => insertAsc key i a) (insertAsc key i acc)
        ~ rest ++ insertAsc key i acc := ih _
      _ ~ rest ++ (i :: acc) := List.Perm.append_left rest (insertAsc_perm key i acc)
      _ ~ i :: (rest ++ acc) := List.perm_middle
      _ = (i :: rest) ++ acc := rfl

theorem argsortAsc_perm (key : Nat → ℚ) (n : Nat) :
    argsortAsc key n ~ List.range n := by
  simpa using foldl_insertAsc_perm key (List.range n) []

theorem sorted_idx_perm (shap_values : List ℚ) :
    sorted_idx shap_values ~ List.range shap_values.length :=
  (List.reverse_perm _).trans (argsortAsc_perm _ _)

theorem insertAsc_pairwise (key : Nat → ℚ) (i : Nat) (l : List Nat)
    (h : l.Pairwise fun a b => key a ≤ key b) :
    (insertAsc key i l).Pairwise fun a b => key a ≤ key b := by
  induction l with
  | nil => simp [insertAsc]
  | cons j rest ih =>
    rcases List.pairwise_cons.mp h with ⟨hj, hrest⟩
    rw [insertAsc]
    by_cases hlt : key i < key j
    · rw [if_pos hlt]
      refine List.pairwise_cons.mpr ⟨?_, h⟩
      intro x hx
      rcases List.mem_cons.mp hx with rfl | hx
      · exact hlt.le
      · exact hlt.le.trans (hj x hx)
    · rw [if_neg hlt]
      refine List.pairwise_cons.mpr ⟨?_, ih hrest⟩
      intro x hx
      rcases List.mem_cons.mp ((insertAsc_perm key i rest).mem_iff.mp hx) with rfl | hx2
      · exact not_lt.mp hlt
      · exact hj x hx2

theorem foldl_insertAsc_pairwise (key : Nat → ℚ) (l acc : List Nat)
    (h : acc.Pairwise fun a b => key a ≤ key b) :
    (l.foldl (fun a i => insertAsc key i a) acc).Pairwise fun a b => key a ≤ key b := by
  induction l generalizing acc with
  | nil => exact h
  | cons i rest ih => exact ih _ (insertAsc_pairwise key i acc h)

theorem argsortAsc_pairwise (key : Nat → ℚ) (n : Nat) :
    (argsortAsc key n).Pairwise fun a b => key a ≤ key b :=
  foldl_insertAsc_pairwise key _ [] (by simp)

theorem sublist_insertAsc (key : Nat → ℚ) (i : Nat) (l : List Nat) :
    l <+ insertAsc key i l := by
  induction l with
  | nil => simp [insertAsc]
  | cons j rest ih =>
    rw [insertAsc]
    by_cases h : key i < key j
    · rw [if_pos h]
      exact List.Sublist.cons i (List.Sublist.refl _)
    · rw [if_neg h]
      exact List.Sublist.cons₂ j ih

theorem mem_insertAsc_self (key : Nat → ℚ) (i : Nat) (l : List Nat) :
    i ∈ insertAsc key i l :=
  (insertAsc_perm key i l).mem_iff.mpr (List.mem_cons_self i l)

theorem pair_sublist_insertAsc (key : Nat → ℚ) (e x : Nat) (l : List Nat)
    (hsorted : l.Pairwise fun a b => key a ≤ key b)
    (hx : x ∈ l) (hkey : key x ≤ key e) :
    [x, e] <+ insertAsc key e l := by
  induction l with
  | nil => cases hx
  | cons j rest ih =>
    rcases List.pairwise_cons.mp hsorted with ⟨hj, hrest⟩
    rw [insertAsc]
    by_cases hlt : key e < key j
    · exfalso
      have hje : key j ≤ key e := by
        rcases List.mem_cons.mp hx with rfl | hmem
        · exact hkey
        · exact (hj x hmem).trans hkey
      exact absurd (hje.trans_lt hlt) (lt_irrefl _)
    · rw [if_neg hlt]
      rcases List.mem_cons.mp hx with rfl | hmem
      · exact List.Sublist.cons₂ x
          (List.singleton_sublist.mpr (mem_insertAsc_self key e rest))
      · exact List.Sublist.cons j (ih hrest hmem)

theorem sublist_foldl_insertAsc (key : Nat → ℚ) (l acc s : List Nat)
    (h : s <+ acc) : s <+ l.foldl (fun a i => insertAsc key i a) acc := by
  induction l generalizing acc with
  | nil => exact h
  | cons i rest ih => exact ih _ (h.trans (sublist_insertAsc key i acc))

theorem argsortAsc_succ (key : Nat → ℚ) (n : Nat) :
    argsortAsc key (n + 1) = insertAsc key n (argsortAsc key n) := by
  unfold argsortAsc
  rw [List.range_succ, List.foldl_append]
  rfl

theorem mem_argsortAsc (key : Nat → ℚ) {i n : Nat} (h : i < n) :
    i ∈ argsortAsc key n :=
  (argsortAsc_perm key n).mem_iff.mpr (List.mem_range.mpr h)

theorem pair_sublist_argsortAsc (key : Nat → ℚ) {i j n : Nat} (hij : i < j) (hj : j < n)
    (hkey : key i ≤ key j) : [i, j] <+ argsortAsc key n := by
  induction n with
  | zero => cases hj
  | succ m ih =>
    rw [argsortAsc_succ]
    rcases Nat.lt_succ_iff_lt_or_eq.mp hj with hj2 | rfl
    · exact (ih hj2).trans (sublist_insertAsc key m _)
    · exact pair_sublist_insertAsc key j i _ (argsortAsc_pairwise key j)
        (mem_argsortAsc key hij) hkey

theorem pair_sublist_sorted_idx (shap_values : List ℚ) {i j : Nat} (hij : i < j)
    (hj : j < shap_values.length)
    (hkey : |shap_values.getD i 0| ≤ |shap_values.getD j 0|) :
    [j, i] <+ sorted_idx shap_values := by
  have h := (pair_sublist_argsortAsc (fun a => |shap_values.getD a 0|) hij hj hkey).reverse
  simpa [sorted_idx] using h

/-! ### Waterfall walk lemmas -/

theorem waterfallWalk_length (sv fv : List ℚ) (names : List String) (idxs : List Nat) (c : ℚ) :
    (waterfallWalk sv fv names idxs c).length = idxs.length := by
  induction idxs generalizing c with
  | nil => rfl
  | cons i rest ih => simp [waterfallWalk, ih]

theorem waterfallWalk_map_value (sv fv : List ℚ) (names : List String) (idxs : List Nat)
    (c : ℚ) :
    (waterfallWalk sv fv names idxs c).map Segment.value = idxs.map fun i => sv.getD i 0 := by
  induction idxs generalizing c with
  | nil => rfl
  | cons i rest ih => simp [waterfallWalk, ih]

theorem waterfallWalk_map_label (sv fv : List ℚ) (names : List String) (idxs : List Nat)
    (c : ℚ) :
    (waterfallWalk sv fv names idxs c).map Segment.label = idxs.map (segmentLabel names fv) := by
  induction idxs generalizing c with
  | nil => rfl
  | cons i rest ih => simp [waterfallWalk, ih]

theorem waterfallWalk_head_position (sv fv : List ℚ) (names : List String) (idxs : List Nat)
    (c : ℚ) (h : idxs ≠ []) :
    ((waterfallWalk sv fv names idxs c).getD 0 default).position = c := by
  cases idxs with
  | nil => cases h rfl
  | cons i rest => rfl

theorem waterfallWalk_chain (sv fv : List ℚ) (names : List String) (idxs : List Nat) (c : ℚ)
    (k : Nat) (h : k + 1 < idxs.length) :
    ((waterfallWalk sv fv names idxs c).getD (k + 1) default).position =
      ((waterfallWalk sv fv names idxs c).getD k default).position +
        ((waterfallWalk sv fv names idxs c).getD k default).value := by
  induction idxs generalizing c k with
  | nil => simp at h
  | cons i rest ih =>
    cases k with
    | zero =>
      have hrest : rest ≠ [] := by
        intro he
        rw [he] at h
        simp at h
      simp only [waterfallWalk, List.getD_cons_succ, List.getD_cons_zero]
      exact waterfallWalk_head_position sv fv names rest _ hrest
    | succ k2 =>
      simp only [waterfallWalk, List.getD_cons_succ]
      exact ih _ k2 (by simpa using h)

theorem map_getD_range (xs : List ℚ) :
    (List.range xs.length).map (fun i => xs.getD i 0) = xs := by
  induction xs with
  | nil => rfl
  | cons x rest ih =>
    rw [List.length_cons, List.range_succ_eq_map]
    simp only [List.map_cons, List.getD_cons_zero, List.map_map]
    congr 1

theorem sorted_idx_sum (shap_values : List ℚ) :
    ((sorted_idx shap_values).map fun i => shap_values.getD i 0).sum = shap_values.sum := by
  have hperm := (sorted_idx_perm shap_values).map fun i => shap_values.getD i 0
  rw [hperm.sum_eq, map_getD_range]

/-- Claim C4: for the segment sequence produced by the waterfall builder, the
first segment's offset equals the baseline, each subsequent offset equals the
previous offset plus the previous delta, and the baseline plus the sum of the
emitted deltas equals the baseline plus the sum of all contributions (the
final offset after the walk). -/
theorem waterfall_offsets_spec (shap_values feature_values : List ℚ) (base_value : ℚ)
    (feature_names : List String) (hne : shap_values ≠ []) :
    ((generate_shap_plot shap_values feature_values base_value feature_names).getD 0
      default).position = base_value ∧
    (∀ k, k + 1 <
        (generate_shap_plot shap_values feature_values base_value feature_names).length →
      ((generate_shap_plot shap_values feature_values base_value feature_names).getD (k + 1)
        default).position =
        ((generate_shap_plot shap_values feature_values base_value feature_names).getD k
          default).position +
        ((generate_shap_plot shap_values feature_values base_value feature_names).getD k
          default).value) ∧
    base_value + ((generate_shap_plot shap_values feature_values base_value
      feature_names).map Segment.value).sum = base_value + shap_values.sum := by
  have hlen : (sorted_idx shap_values).length = shap_values.length := by
    simpa using (sorted_idx_perm shap_values).length_eq
  refine ⟨?_, ?_, ?_⟩
  · apply waterfallWalk_head_position
    intro he
    apply hne
    have h0 : shap_values.length = 0 := by rw [← hlen, he]; rfl
    exact List.length_eq_zero.mp h0
  · intro k hk
    refine waterfallWalk_chain _ _ _ _ _ k ?_
    rw [generate_shap_plot, waterfallWalk_length] at hk
    exact hk
  · rw [generate_shap_plot, waterfallWalk_map_value, sorted_idx_sum]

/-- Claim C4 witness. -/
theorem waterfall_offsets_spec_witness :
    ((generate_shap_plot [2, -1] [0, 0] 5 ["a", "b"]).getD 0 default).position = 5 ∧
    ((generate_shap_plot [2, -1] [0, 0] 5 ["a", "b"]).getD 1 default).position =
      ((generate_shap_plot [2, -1] [0, 0] 5 ["a", "b"]).getD 0 default).position +
        ((generate_shap_plot [2, -1] [0, 0] 5 ["a", "b"]).getD 0 default).value ∧
    5 + ((generate_shap_plot [2, -1] [0, 0] 5 ["a", "b"]).map Segment.value).sum =
      5 + ([2, -1] : List ℚ).sum := by
  have hlen : (generate_shap_plot [2, -1] [0, 0] 5 ["a", "b"]).length = 2 := by
    rw [generate_shap_plot, waterfallWalk_length]
    simpa using (sorted_idx_perm [2, -1]).length_eq
  have h := waterfall_offsets_spec [2, -1] [0, 0] 5 ["a", "b"] (by simp)
  exact ⟨h.1, h.2.1 0 (by rw [hlen]; omega), h.2.2⟩

/-- Claim C5 (amended): the waterfall builder orders segments by descending
absolute contribution, but on ties the emitted order is the reverse of the
`selected_features` order: for `i < j` with equal absolute contributions, the
segment of feature `j` appears before the segment of feature `i` (the code
ascending-argsorts stably and then reverses, which flips ties). -/
theorem waterfall_sort_order (shap_values feature_values : List ℚ) (base_value : ℚ)
    (feature_names : List String) (i j : Nat) (hij : i < j) (hj : j < shap_values.length)
    (htie : |shap_values.getD i 0| = |shap_values.getD j 0|) :
    ((generate_shap_plot shap_values feature_values base_value feature_names).map
      Segment.value).Pairwise (fun a b => |b| ≤ |a|) ∧
    [segmentLabel feature_names feature_values j,
      segmentLabel feature_names feature_values i] <+
      (generate_shap_plot shap_values feature_values base_value feature_names).map
        Segment.label := by
  constructor
  · rw [generate_shap_plot, waterfallWalk_map_value, List.pairwise_map, sorted_idx,
      List.pairwise_reverse]
    exact argsortAsc_pairwise _ _
  · rw [generate_shap_plot, waterfallWalk_map_label]
    have h := (pair_sublist_sorted_idx shap_values hij hj (le_of_eq htie)).map
      (segmentLabel feature_names feature_values)
    simpa using h

/-- Claim C5 witness (for the amended claim). -/
theorem waterfall_sort_order_witness :
    ((generate_shap_plot [1, 1] [5, 6] 0 ["a", "b"]).map Segment.value).Pairwise
      (fun a b => |b| ≤ |a|) ∧
    [segmentLabel ["a", "b"] [5, 6] 1, segmentLabel ["a", "b"] [5, 6] 0] <+
      (generate_shap_plot [1, 1] [5, 6] 0 ["a", "b"]).map Segment.label :=
  waterfall_sort_order [1, 1] [5, 6] 0 ["a", "b"] 0 1 (by omega) (by simp) rfl

/-! ### Concrete label evaluation -/

theorem formatFixed2_eval (q : ℚ) (n : Nat) (h1 : ¬q < 0)
    (h2 : ⌊q * 100 + 1 / 2⌋ = (n : ℤ)) :
    formatFixed2 q = toString (n / 100) ++ "." ++ pad2 (n % 100) := by
  rw [formatFixed2, if_neg h1, formatFixed2Nonneg, h2, Int.toNat_natCast]

theorem formatFixed2_five : formatFixed2 5 = "5.00" := by
  have h := formatFixed2_eval 5 500 (by norm_num)
    (by rw [Int.floor_eq_iff]; constructor <;> norm_num)
  rw [h]
  rfl

theorem formatFixed2_six : formatFixed2 6 = "6.00" := by
  have h := formatFixed2_eval 6 600 (by norm_num)
    (by rw [Int.floor_eq_iff]; constructor <;> norm_num)
  rw [h]
  rfl

/-- Claim C5 counterexample: two features with equal absolute contribution
(`shap_values = [1, 1]`, `selected_features = ["a", "b"]`) are emitted in the
order b-then-a — the reverse of the `selected_features` order — so the
claimed tie order (matching `selected_features`) is false at this input. -/
theorem waterfall_tie_cx :
    (generate_shap_plot [1, 1] [5, 6] 0 ["a", "b"]).map Segment.label =
      ["b = 6.00", "a = 5.00"] ∧
    ¬ [segmentLabel ["a", "b"] [5, 6] 0, segmentLabel ["a", "b"] [5, 6] 1] <+
      (generate_shap_plot [1, 1] [5, 6] 0 ["a", "b"]).map Segment.label := by
  have hl0 : segmentLabel ["a", "b"] [5, 6] 0 = "a = 5.00" := by
    have h : segmentLabel ["a", "b"] [5, 6] 0 = "a" ++ " = " ++ formatFixed2 5 := rfl
    rw [h, formatFixed2_five]
    exact rfl
  have hl1 : segmentLabel ["a", "b"] [5, 6] 1 = "b = 6.00" := by
    have h : segmentLabel ["a", "b"] [5, 6] 1 = "b" ++ " = " ++ formatFixed2 6 := rfl
    rw [h, formatFixed2_six]
    exact rfl
  have hseq : (generate_shap_plot [1, 1] [5, 6] 0 ["a", "b"]).map Segment.label =
      [segmentLabel ["a", "b"] [5, 6] 1, segmentLabel ["a", "b"] [5, 6] 0] := by
    rw [generate_shap_plot, waterfallWalk_map_label,
      (by decide : sorted_idx [1, 1] = [1, 0])]
    rfl
  refine ⟨by rw [hseq, hl0, hl1], fun hsub => ?_⟩
  rw [hseq, hl0, hl1] at hsub
  have heq := hsub.eq_of_length (by rfl)
  have hhead : ("a = 5.00" : String) = "b = 6.00" := by injection heq
  exact absurd hhead (by decide)

/-- Claim C6: when the attribution method returns per-class output, the code
selects the SHAP row and the expected value at class index 1 — the same
positive-class index `[0, 1]` that the probability `predict_proba(X)[0, 1]`
uses — so probability and attribution reference one common class index. -/
theorem class_index_consistent (classes : List (List ℚ)) (vals : List ℚ)
    (probs : List (List ℚ)) (row : List ℚ)
    (_hc : 1 < classes.length) (hv : 1 < vals.length) (hrow : probs[0]? = some row) :
    selectShap (ShapOutput.perClass classes) = classes[1]? ∧
    selectBase (BaseValue.arr vals) = vals[1]? ∧
    predictProbability probs = row[1]? := by
  refine ⟨rfl, ?_, ?_⟩
  · rw [selectBase, if_pos hv]
  · rw [predictProbability, hrow]
    rfl

/-- Claim C6 witness. -/
theorem class_index_consistent_witness :
    selectShap (ShapOutput.perClass [[(1 : ℚ)], [2]]) = ([[(1 : ℚ)], [2]])[1]? ∧
    selectBase (BaseValue.arr [(3 : ℚ), 4]) = ([(3 : ℚ), 4])[1]? ∧
    predictProbability [[(5 : ℚ), 6]] = ([(5 : ℚ), 6])[1]? :=
  class_index_consistent [[1], [2]] [3, 4] [[5, 6]] [5, 6] (by decide) (by decide) rfl

/-- Claim C7: if the attribution computation fails, the request is not
aborted: the handler still returns the probability and risk band computed
from the same preprocessed vector, omits the decomposition, and surfaces a
warning. -/
theorem attribution_failure_degraded (input_data : List (String × ℚ)) (fi : FeaturesInfo)
    (ordinal_encoder scaler_cont : Option (String → ℚ → ℚ))
    (predict_proba : List (String × ℚ) → List (List ℚ))
    (shap_values_of : List (String × ℚ) → Except String (ShapOutput × BaseValue))
    (X : List (String × ℚ)) (p : ℚ) (e : String)
    (hX : preprocess_input input_data fi ordinal_encoder scaler_cont = .ok X)
    (hp : predictProbability (predict_proba X) = some p)
    (hfail : shap_values_of X = .error e) :
    handlePrediction input_data fi ordinal_encoder scaler_cont predict_proba
      shap_values_of =
      .ok { probability := p, risk_class := classify p, decomposition := none,
            warning := some ("Feature impact analysis generation failed: " ++ e) } := by
  simp only [handlePrediction, hX, hp, hfail]

/-- Claim C7 witness. -/
theorem attribution_failure_degraded_witness :
    handlePrediction [("a", 1)] ⟨["a"], [], ["a"]⟩ none (some fun _ x => x)
      (fun _ => [[0, 1]]) (fun _ => .error "boom") =
      .ok { probability := 1, risk_class := classify 1, decomposition := none,
            warning := some ("Feature impact analysis generation failed: " ++ "boom") } :=
  attribution_failure_degraded [("a", 1)] ⟨["a"], [], ["a"]⟩ none (some fun _ x => x)
    (fun _ => [[0, 1]]) (fun _ => .error "boom") [("a", 1)] 1 "boom" rfl rfl rfl

/-- Claim C8 (amended): when the handler produces a decomposition, every
segment label combines the display name (with fallback to the raw feature id
for ids not in `feature_name_map`) with the feature's encoded
(post-preprocessing) value — the vector `X` returned by `preprocess_input`,
not the raw pre-encoding value — formatted to two decimal places. -/
theorem segment_label_spec (input_data : List (String × ℚ)) (fi : FeaturesInfo)
    (ordinal_encoder scaler_cont : Option (String → ℚ → ℚ))
    (predict_proba : List (String × ℚ) → List (List ℚ))
    (shap_values_of : List (String × ℚ) → Except String (ShapOutput × BaseValue))
    (X : List (String × ℚ)) (p : ℚ) (sv : ShapOutput) (bv : BaseValue)
    (shap_row : List ℚ) (base_value : ℚ)
    (hX : preprocess_input input_data fi ordinal_encoder scaler_cont = .ok X)
    (hp : predictProbability (predict_proba X) = some p)
    (hsv : shap_values_of X = .ok (sv, bv))
    (hrow : selectShap sv = some shap_row)
    (hbase : selectBase bv = some base_value) :
    handlePrediction input_data fi ordinal_encoder scaler_cont predict_proba
      shap_values_of =
      .ok { probability := p, risk_class := classify p,
            decomposition := some (generate_shap_plot shap_row (X.map Prod.snd)
              base_value fi.selected_features),
            warning := none } ∧
    (generate_shap_plot shap_row (X.map Prod.snd) base_value
      fi.selected_features).map Segment.label =
      (sorted_idx shap_row).map
        (segmentLabel fi.selected_features (X.map Prod.snd)) ∧
    ∀ idx, alistLookup feature_name_map (fi.selected_features.getD idx "") = none →
      segmentLabel fi.selected_features (X.map Prod.snd) idx =
        fi.selected_features.getD idx "" ++ " = " ++
          formatFixed2 ((X.map Prod.snd).getD idx 0) := by
  refine ⟨?_, ?_, ?_⟩
  · simp only [handlePrediction, hX, hp, hsv, hrow, hbase]
  · rw [generate_shap_plot, waterfallWalk_map_label]
  · intro idx h
    rw [segmentLabel, h]
    rfl

/-- Claim C8 witness (for the amended claim). -/
theorem segment_label_spec_witness :
    handlePrediction [("a", 10)] ⟨["a"], [], ["a"]⟩ none (some fun _ _ => (5 : ℚ))
      (fun _ => [[0, 1]]) (fun _ => .ok (ShapOutput.single [1], BaseValue.scalar 0)) =
      .ok { probability := 1, risk_class := classify 1,
            decomposition := some (generate_shap_plot [1]
              ([("a", (5 : ℚ))].map Prod.snd) 0 ["a"]),
            warning := none } ∧
    (generate_shap_plot [1] ([("a", (5 : ℚ))].map Prod.snd) 0 ["a"]).map Segment.label =
      (sorted_idx [1]).map (segmentLabel ["a"] ([("a", (5 : ℚ))].map Prod.snd)) ∧
    ∀ idx, alistLookup feature_name_map ((["a"] : List String).getD idx "") = none →
      segmentLabel ["a"] ([("a", (5 : ℚ))].map Prod.snd) idx =
        (["a"] : List String).getD idx "" ++ " = " ++
          formatFixed2 (([("a", (5 : ℚ))].map Prod.snd).getD idx 0) :=
  segment_label_spec [("a", 10)] ⟨["a"], [], ["a"]⟩ none (some fun _ _ => (5 : ℚ))
    (fun _ => [[0, 1]]) (fun _ => .ok (ShapOutput.single [1], BaseValue.scalar 0))
    [("a", 5)] 1 (ShapOutput.single [1]) (BaseValue.scalar 0) [1] 0
    rfl rfl rfl rfl rfl

/-- Claim C8 counterexample: the raw record has `a = 10`, the configured
scaler encodes it to `5`, and the emitted waterfall label is `"a = 5.00"` —
the encoded value, not the raw pre-encoding value `10` (whose label would be
`"a = 10.00"`); so the claim that labels show the raw value is false at this
input. -/
theorem segment_label_raw_cx :
    handlePrediction [("a", 10)] ⟨["a"], [], ["a"]⟩ none (some fun _ _ => (5 : ℚ))
      (fun _ => [[0, 1]]) (fun _ => .ok (ShapOutput.single [1], BaseValue.scalar 0)) =
      .ok { probability := 1, risk_class := RiskBand.High,
            decomposition := some [Segment.mk 0 1 "#FF6B6B" "a = 5.00"],
            warning := none } ∧
    ("a = 5.00" : String) ≠ "a = 10.00" := by
  constructor
  · have hlab : segmentLabel ["a"] [5] 0 = "a = 5.00" := by
      have h : segmentLabel ["a"] [5] 0 = "a" ++ " = " ++ formatFixed2 5 := rfl
      rw [h, formatFixed2_five]
      exact rfl
    have hcl : classify 1 = RiskBand.High := by
      rw [classify]
      norm_num
    have hseg : generate_shap_plot [1] [5] 0 ["a"] =
        [Segment.mk 0 1 "#FF6B6B" "a = 5.00"] := by
      rw [generate_shap_plot, (rfl : sorted_idx [1] = [0])]
      show Segment.mk 0 ((1 : ℚ)) (if (0 : ℚ) < 1 then "#FF6B6B" else "#4ECDC4")
        (segmentLabel ["a"] [5] 0) :: waterfallWalk [1] [5] ["a"] [] (0 + 1) =
        [Segment.mk 0 1 "#FF6B6B" "a = 5.00"]
      rw [hlab, if_pos (by norm_num : (0 : ℚ) < 1)]
      rfl
    have hh : handlePrediction [("a", 10)] ⟨["a"], [], ["a"]⟩ none
        (some fun _ _ => (5 : ℚ)) (fun _ => [[0, 1]])
        (fun _ => .ok (ShapOutput.single [1], BaseValue.scalar 0)) =
        .ok { probability := 1, risk_class := classify 1,
              decomposition := some (generate_shap_plot [1] [5] 0 ["a"]),
              warning := none } := by
      rw [handlePrediction,
        (rfl : preprocess_input [("a", 10)] ⟨["a"], [], ["a"]⟩ none
          (some fun _ _ => (5 : ℚ)) = .ok [("a", 5)])]
      rfl
    rw [hh, hseg, hcl]
  · decide

end SleepApp
